import Mathlib

/-!
# Shallow embedding of the exam-platform scoring / ranking core

This file embeds, in Lean 4, the parts of the `exam-platform` repository that
the verified claims are about:

* the per-question scoring engine `_score_submission`
  (`app/api/test_attempt/__init__.py`) and its simulation twin
  (`app/simulation/__init__.py`);
* the attempt-lifecycle endpoints `start_test`, `end_test`, `submit_answer`
  (`app/api/test_attempt/__init__.py`) together with the `Submission`
  document model and its persistence-layer validation
  (`app/models/submission.py`);
* the exam-conclusion pipeline `conclude_exam`
  (`app/services/exam_conclusion/__init__.py`) with its two streaming
  ranking loops (overall and subject-wise).

Conventions of the embedding:

* Mongo documents become Lean structures; `ObjectId`s become `ℕ`;
  datetimes become `ℤ` (seconds); references are embedded either as ids
  (`ℕ`) resolved against the lists held in a state structure, or, where the
  source always dereferences them (`PaperQuestion.question`), inline.
* Python ints are `ℤ`; Python float arithmetic is modelled exactly with `ℚ`
  (the source only multiplies, divides and rounds decimally); Python's
  `int(x)` truncation toward zero is `pyInt`, and `round(x, 4)` is
  `roundTo4` (round to nearest; the half-tie behaviour of binary floats is
  immaterial to every statement below).
* Fallible endpoints return `Except ApiError`, `ApiError.http` carrying the
  `HTTPException` status code and detail string of the source.
* Presentation-only fields that no embedded operation reads
  (`Question.statement`, option text/image, `Paper.name`, audit
  timestamps) are omitted.
-/

namespace ExamPlatform

/-- Python `int(x)` applied to a float/int value: truncation toward zero. -/
def pyInt (x : ℚ) : ℤ := if 0 ≤ x then ⌊x⌋ else ⌈x⌉

/-- Python `round(x, 4)`: round to four decimal places
(nearest-value rounding; ties are immaterial for everything proved here). -/
def roundTo4 (x : ℚ) : ℚ := (round (x * 10000) : ℤ) / 10000

/-! ## Data model: questions and papers (`app/models/question.py`, `app/models/paper.py`) -/

/-- Embedded option of a question (`QuestionOption`).
`type`, `image_url` and `text` are presentation-only and omitted. -/
structure QuestionOption where
  correct : Bool
  order : ℤ
  weight : ℤ
  code : String
deriving DecidableEq

/-- Question bank entry (`Question`).  `type` is kept as the raw string the
source stores and branches on (`"single_correct"` / `"multiple_correct"`). -/
structure Question where
  qid : ℕ
  code : String
  type : String
  subject_code : String
  question_options : List QuestionOption
deriving DecidableEq

/-- Embedded paper entry (`PaperQuestion`); the `question` reference is
embedded inline since the source always dereferences it. -/
structure PaperQuestion where
  mandatory : Bool
  order : ℤ
  question : Question
  negative_score : ℤ
  positive_score : ℤ
deriving DecidableEq

/-- Paper template (`Paper`).  `max_score` is the *stored* (cached) field;
`subject_max_scores` keeps `(subject_code, max_score)` pairs. -/
structure Paper where
  pid : ℕ
  code : String
  max_score : ℤ
  subject_max_scores : List (String × ℤ)
  duration_minutes : ℤ
  paper_questions : List PaperQuestion
deriving DecidableEq

/-- The `HTTPException(status_code, detail)` raised by the API layer. -/
inductive ApiError where
  | http (status : ℕ) (detail : String)
deriving DecidableEq

/-! ## Scoring engine (`_score_submission`, `app/api/test_attempt/__init__.py` lines 107-153) -/

/-- Python dict `by_code = {opt.code: opt for opt in question.question_options}` —
a Python dict comprehension keeps the *last* entry for a repeated key,
hence the lookup over the reversed option list. -/
def byCode (q : Question) (c : String) : Option QuestionOption :=
  q.question_options.reverse.find? (fun o => o.code = c)

/-- Python set `correct_set = {opt.code for opt in question.question_options if opt.correct}`. -/
def correctCodes (q : Question) : List String :=
  (q.question_options.filter (fun o => o.correct)).map (fun o => o.code)

/-- The `total_weight` accumulated over the distinct chosen codes
(`for code in chosen_set: opt = by_code.get(code); if opt.correct: += opt.weight`). -/
def chosenWeight (q : Question) (chosen : List String) : ℤ :=
  ((chosen.dedup).map (fun c =>
    match byCode q c with
    | some o => if o.correct then o.weight else 0
    | none => 0)).sum

/-- The body of the live scorer's `for pq in paper_questions:` loop on the
first entry whose bound question code matches; every path returns or raises. -/
def scoreAt (pq : PaperQuestion) (q : Question) (chosen : List String) :
    Except ApiError (ℚ × ℤ) :=
  if chosen = [] ∧ pq.mandatory then
    .error (.http 409 "Mandatory question needs to be answered")
  else if chosen.any (fun c => (byCode q c).isNone) then
    .ok (-(pq.negative_score : ℚ), pq.positive_score)
  else if chosen.any (fun c => !(decide (c ∈ correctCodes q))) then
    .ok (-(pq.negative_score : ℚ), pq.positive_score)
  else if q.type = "single_correct" then
    if chosen = [] then .ok (0, pq.positive_score)
    else .ok ((pq.positive_score : ℚ), pq.positive_score)
  else if q.type = "multiple_correct" then
    .ok (((chosenWeight q chosen : ℚ) * (pq.positive_score : ℚ)) / 100, pq.positive_score)
  else .ok (0, pq.positive_score)

/-- Live scorer `_score_submission(paper, question, options_chosen)`:
the loop skips entries with a different question code and the body of the
first matching entry always returns, so it is the `find?` of the list;
falling off the loop raises `404 Question not found in paper`.
The score component is `ℚ` because the multiple-correct branch uses
Python float division (`(total_weight * pq.positive_score) / 100`). -/
def score_submission (paper : Paper) (q : Question) (chosen : List String) :
    Except ApiError (ℚ × ℤ) :=
  match paper.paper_questions.find? (fun pq => pq.question.code = q.code) with
  | some pq => scoreAt pq q chosen
  | none => .error (.http 404 "Question not found in paper")

/-- Body of the simulation scorer's loop on the first matching paper entry:
like `scoreAt` but with no mandatory check and with the multiple-correct
score truncated by `int(score)`. -/
def simScoreAt (pq : PaperQuestion) (q : Question) (chosen : List String) : ℤ × ℤ :=
  if chosen.any (fun c => (byCode q c).isNone) then
    (-pq.negative_score, pq.positive_score)
  else if chosen.any (fun c => !(decide (c ∈ correctCodes q))) then
    (-pq.negative_score, pq.positive_score)
  else if q.type = "single_correct" then
    if chosen = [] then (0, pq.positive_score)
    else (pq.positive_score, pq.positive_score)
  else if q.type = "multiple_correct" then
    (pyInt (((chosenWeight q chosen : ℚ) * (pq.positive_score : ℚ)) / 100), pq.positive_score)
  else (0, pq.positive_score)

/-- The simulation's scorer `_score_submission` (`app/simulation/__init__.py`
lines 167-197): same structure as the live scorer, but no mandatory check,
`(0, 0)` instead of an error when the question is not in the paper, and the
multiple-correct score truncated with `int(score)`. -/
def sim_score_submission (paper : Paper) (q : Question) (chosen : List String) :
    ℤ × ℤ :=
  match paper.paper_questions.find? (fun pq => pq.question.code = q.code) with
  | none => (0, 0)
  | some pq => simScoreAt pq q chosen

/-! ## Conclusion pipeline ranking loops
(`conclude_exam`, `app/services/exam_conclusion/__init__.py`)

Both loops consume a cursor of `(_id, score)` documents sorted by score
descending and keep the mutable state `idx` / `current_rank` / `prev_score`.
-/

/-- Python condition `prev_score is None or s < prev_score`. -/
def prevLt (prev : Option ℤ) (s : ℤ) : Bool :=
  match prev with
  | none => true
  | some p => s < p

/-- The overall ranking loop (lines 47-62): `current_rank` is updated to
`idx` *before* `idx` is incremented, the percentile is computed from
`current_rank`, and the written rank is `current_rank + 1`.
Emits `(_id, rank written, percentile written)`. -/
def overallGo (N : ℕ) : ℕ → ℕ → Option ℤ → List (ℕ × ℤ) → List (ℕ × ℕ × ℚ)
  | _, _, _, [] => []
  | idx, cr, prev, e :: rest =>
    let cr' := if prevLt prev e.2 then idx else cr
    (e.1, cr' + 1, roundTo4 (100 * ((N : ℚ) - (cr' : ℚ)) / (N : ℚ)))
      :: overallGo N (idx + 1) cr' (some e.2) rest

/-- The subject-wise ranking loop (lines 90-106): `idx` is incremented
*before* `current_rank` is updated, and the written rank is `current_rank`
itself. -/
def subjectGo (N : ℕ) : ℕ → ℕ → Option ℤ → List (ℕ × ℤ) → List (ℕ × ℕ × ℚ)
  | _, _, _, [] => []
  | idx, cr, prev, e :: rest =>
    let cr' := if prevLt prev e.2 then idx + 1 else cr
    (e.1, cr', roundTo4 (100 * ((N : ℚ) - (cr' : ℚ)) / (N : ℚ)))
      :: subjectGo N (idx + 1) cr' (some e.2) rest

/-- Overall ranking pass with the loop's initial state (`idx = 0`,
`current_rank = 0`, `prev_score = None`). -/
def overallPass (N : ℕ) (docs : List (ℕ × ℤ)) : List (ℕ × ℕ × ℚ) :=
  overallGo N 0 0 none docs

/-- Subject-wise ranking pass with the loop's initial state. -/
def subjectPass (N : ℕ) (docs : List (ℕ × ℤ)) : List (ℕ × ℕ × ℚ) :=
  subjectGo N 0 0 none docs

/-- Number of documents whose score strictly exceeds `s`. -/
def cntGt (L : List (ℕ × ℤ)) (s : ℤ) : ℕ := L.countP (fun x => decide (s < x.2))

/-! ## Attempt documents (`app/models/test_attempt.py`) -/

/-- The `TestStatus` enum (stored as strings; the four values form a closed set). -/
inductive TestStatus where
  | NOT_STARTED
  | IN_PROGRESS
  | COMPLETED
  | CANCELLED
deriving DecidableEq

/-- Embedded `TestSubjectScore`. -/
structure TestSubjectScore where
  total_score : ℤ
  subject_code : String
  max_total_score : ℤ
  percentile : Option ℚ
  rank : Option ℤ
deriving DecidableEq

/-- The `TestAttempt` document.  `type` is the raw string the source stores
(`"COMPETITIVE"` / `"PRACTICE"`); `exam` and `paper` references are ids. -/
structure TestAttempt where
  tid : ℕ
  user : ℕ
  exam : Option ℕ
  paper_id : ℕ
  type : String
  status : TestStatus
  started_on : Option ℤ
  ended_on : Option ℤ
  total_score : ℤ
  max_total_score : ℤ
  subject_scores : List TestSubjectScore
  percentile : Option ℚ
  rank : Option ℤ
deriving DecidableEq

/-! ## Conclusion pipeline (`conclude_exam`, `app/services/exam_conclusion/__init__.py`) -/

/-- An attempt counts for ranking iff it belongs to the exam and its status
is `IN_PROGRESS` or `COMPLETED` (lines 21-22, 34). -/
def isActiveFor (eid : ℕ) (a : TestAttempt) : Bool :=
  a.exam = some eid ∧ (a.status = TestStatus.IN_PROGRESS ∨ a.status = TestStatus.COMPLETED)

/-- Insertion of one `(_id, score)` document into a score-descending list. -/
def insertDesc (e : ℕ × ℤ) : List (ℕ × ℤ) → List (ℕ × ℤ)
  | [] => [e]
  | x :: xs => if x.2 ≤ e.2 then e :: x :: xs else x :: insertDesc e xs

/-- The server-side `$sort: {score: -1}` of the aggregation cursors
(tie order among equal scores is unspecified in Mongo; this embedding fixes
insertion order, which no proved statement depends on). -/
def sortDesc (l : List (ℕ × ℤ)) : List (ℕ × ℤ) := l.foldr insertDesc []

/-- Effect of the overall pass's
`UpdateOne({_id}, {$set: {rank: current_rank + 1, percentile}})`
batch on one attempt document: the update targeting its `_id`, if any. -/
def applyOverall (upds : List (ℕ × ℕ × ℚ)) (a : TestAttempt) : TestAttempt :=
  match upds.find? (fun u => u.1 = a.tid) with
  | some u => { a with rank := some (u.2.1 : ℤ), percentile := some u.2.2 }
  | none => a

/-- Effect of the subject pass's
`UpdateOne({_id}, {$set: {"subject_scores.$[elem].rank": ..., ...percentile}},
array_filters=[{"elem.subject_code": subj}])` batch on one attempt document:
every embedded bucket matching the subject code is overwritten. -/
def applySubj (subj : String) (upds : List (ℕ × ℕ × ℚ)) (a : TestAttempt) : TestAttempt :=
  match upds.find? (fun u => u.1 = a.tid) with
  | some u =>
    { a with subject_scores := a.subject_scores.map (fun ss =>
        if ss.subject_code = subj then
          { ss with rank := some (u.2.1 : ℤ), percentile := some u.2.2 }
        else ss) }
  | none => a

/-- The `(_id, total_score)` stream of the overall cursor (lines 33-37):
active attempts, projected, sorted by score descending. -/
def activeDocs (eid : ℕ) (l : List TestAttempt) : List (ℕ × ℤ) :=
  sortDesc ((l.filter (isActiveFor eid)).map (fun a => (a.tid, a.total_score)))

/-- The `(_id, subject score)` stream of one subject cursor (lines 82-88):
active attempts unwound to their bucket for `s` (attempts without such a
bucket produce no document), sorted by score descending. -/
def subjDocsOf (eid : ℕ) (s : String) (l : List TestAttempt) : List (ℕ × ℤ) :=
  sortDesc ((l.filter (isActiveFor eid)).filterMap (fun a =>
    (a.subject_scores.find? (fun ss => ss.subject_code = s)).map
      (fun ss => (a.tid, ss.total_score))))

/-- Python list `subjects = [ps.subject_code for ps in (getattr(paper, "subject_max_scores", []) or [])]`
(line 72; an absent paper yields the empty list via the `getattr` default). -/
def paperSubjects : Option Paper → List String
  | some p => p.subject_max_scores.map Prod.fst
  | none => []

/-- New state of the exam document written by `exam.save()` at the end of a
conclusion run (`concluded_on` is a wall-clock timestamp and is not
modelled). -/
structure ConcludeResult where
  attempted_count : ℤ
  highest_score : ℤ
  lowest_score : ℤ
  max_score : ℤ
  attempts : List TestAttempt
deriving DecidableEq

/-- Function `conclude_exam(exam_id)`.  Inputs: the exam's id, its current
`max_score` field (kept when the exam has no paper), its (optionally
dereferenced) paper, and the attempt collection.

* `N == 0`: the exam is finalised with zeroed aggregates and
  `max_score = int(exam.paper.max_score or 0)` — the *cached* paper field
  (line 28); no attempt is touched.
* otherwise: the overall loop ranks the sorted `total_score` stream and its
  batched writes set `rank`/`percentile`; then, for each subject code of the
  paper's `subject_max_scores` (in order), the subject loop ranks that
  subject's stream — re-read from the current collection state — and its
  writes set the bucket's `rank`/`percentile`; finally the aggregates are
  written, `max_score` now *recomputed* as the sum of `positive_score` over
  the paper's questions (line 119). -/
def conclude_exam (eid : ℕ) (examMax : ℤ) (paper : Option Paper)
    (attempts : List TestAttempt) : ConcludeResult :=
  let active := attempts.filter (isActiveFor eid)
  let N := active.length
  if N = 0 then
    { attempted_count := 0, highest_score := 0, lowest_score := 0,
      max_score := match paper with | some p => p.max_score | none => 0,
      attempts := attempts }
  else
    let overallDocs := activeDocs eid attempts
    let attempts1 := attempts.map (applyOverall (overallGo N 0 0 none overallDocs))
    let subjects := paperSubjects paper
    let attempts2 := subjects.foldl (fun acc subj =>
      let d := subjDocsOf eid subj acc
      if d.length = 0 then acc
      else acc.map (applySubj subj (subjectGo d.length 0 0 none d))) attempts1
    { attempted_count := N,
      highest_score := (overallDocs.head?.map Prod.snd).getD 0,
      lowest_score := (overallDocs.getLast?.map Prod.snd).getD 0,
      max_score := match paper with
        | some p => (p.paper_questions.map (fun pq => pq.positive_score)).sum
        | none => examMax,
      attempts := attempts2 }

/-! ## Idempotence infrastructure for the conclusion pipeline

The ranking passes read only an attempt's id, exam, status, `total_score`
and the `(subject_code, total_score)` projection of its buckets; the batched
writes touch only `rank`/`percentile` fields.  `proj` captures exactly what
is read. -/

/-- The fields of an attempt document that the conclusion pipeline reads. -/
def proj (a : TestAttempt) : ℕ × Option ℕ × TestStatus × ℤ × List (String × ℤ) :=
  (a.tid, a.exam, a.status, a.total_score,
    a.subject_scores.map (fun ss => (ss.subject_code, ss.total_score)))

/-- One bulk write of the pipeline: either the overall batch or one
subject's batch. -/
inductive RankUpd where
  | overall (u : List (ℕ × ℕ × ℚ))
  | subj (s : String) (u : List (ℕ × ℕ × ℚ))
deriving DecidableEq

def applyUpd : RankUpd → TestAttempt → TestAttempt
  | .overall u, a => applyOverall u a
  | .subj s u, a => applySubj s u a

/-- Apply a sequence of bulk writes to the whole collection. -/
def applyPlan (plan : List RankUpd) (l : List TestAttempt) : List TestAttempt :=
  plan.foldl (fun acc u => acc.map (applyUpd u)) l

/-- Apply a sequence of bulk writes to one document. -/
def applyChain (plan : List RankUpd) (a : TestAttempt) : TestAttempt :=
  plan.foldl (fun x u => applyUpd u x) a

/-! The writes actually issued by one conclusion run, computed from a fixed
collection state. -/

/-- The subject batch issued for subject `s` (skipped when no active attempt
has a bucket for `s`, mirroring `if subj_total == 0: continue`). -/
def subjUpdFor (eid : ℕ) (l : List TestAttempt) (s : String) : Option RankUpd :=
  let d := subjDocsOf eid s l
  if d.length = 0 then none
  else some (.subj s (subjectGo d.length 0 0 none d))

/-- All writes of one conclusion run over collection state `l`. -/
def planFor (eid : ℕ) (l : List TestAttempt) (subjects : List String) : List RankUpd :=
  .overall (overallGo (l.filter (isActiveFor eid)).length 0 0 none (activeDocs eid l))
    :: subjects.filterMap (subjUpdFor eid l)

/-! ## Exam documents and the attempt lifecycle endpoints
(`app/models/exam.py`, `app/api/test_attempt/__init__.py`) -/

/-- The `Exam` document (fields the embedded operations read; status, date and
counters are not read by any embedded operation). -/
structure Exam where
  eid : ℕ
  paper_id : ℕ
  start_time : ℤ
  end_time : ℤ
deriving DecidableEq

/-- The `Submission` document (`app/models/submission.py`).  `paper` is an
`Option` because it is a *required* reference that the API handler never
passes when constructing the document; `score` is `ℚ` because the
multiple-correct scorer hands a float to the constructor.
`submitted_at` and audit timestamps are not modelled. -/
structure Submission where
  user : ℕ
  paper : Option ℕ
  question : ℕ
  test_attempt : ℕ
  options_chosen : List String
  subject_code : String
  max_score : ℤ
  score : ℚ
deriving DecidableEq

/-- The `mongoengine` validation run by `Submission.save()`:
required reference fields must be present (`paper` is `required=True` with no
default), and the `IntField(min_value=0)` constraints on `score` and
`max_score` check `int(value) >= 0` after Python `int()` conversion. -/
def submissionValid (s : Submission) : Bool :=
  s.paper.isSome ∧ 0 ≤ pyInt s.score ∧ 0 ≤ pyInt s.max_score

/-- Effect of `Submission.save()` against the `submissions` collection: validation,
then the unique index on `(test_attempt, question, user)`; `none` models the
raised exception, `some` the new collection state. -/
def saveSubmission (store : List Submission) (s : Submission) : Option (List Submission) :=
  if ¬ submissionValid s then none
  else if store.any (fun t =>
      t.test_attempt = s.test_attempt ∧ t.question = s.question ∧ t.user = s.user) then none
  else some (store ++ [s])

/-- The mutable persistent state the lifecycle endpoints touch. -/
structure SubmitState where
  exams : List Exam
  papers : List Paper
  questions : List Question
  test_attempts : List TestAttempt
  submissions : List Submission
deriving DecidableEq

/-- Function `_within_time_window(user_test)` (lines 96-105): competitive attempts are
accepted inside the exam window (inclusive), practice attempts within
`duration_minutes * 60` seconds of `started_on`; any other `type` string
falls through to `False`.  A dangling or absent exam/paper reference gives
`False` (Python: `bool(None and ...)` / guard on `started_on`). -/
def within_time_window (exams : List Exam) (papers : List Paper) (now : ℤ)
    (t : TestAttempt) : Bool :=
  if t.type = "COMPETITIVE" then
    match t.exam.bind (fun eid => exams.find? (fun e => e.eid = eid)) with
    | some e => e.start_time ≤ now ∧ now ≤ e.end_time
    | none => false
  else if t.type = "PRACTICE" then
    match t.started_on, papers.find? (fun p => p.pid = t.paper_id) with
    | some s, some p => now - s ≤ p.duration_minutes * 60
    | _, _ => false
  else false

structure StartTestBody where
  paper_id : ℕ
  exam_id : Option ℕ
deriving DecidableEq

/-- Endpoint `POST /start` (`start_test`, lines 22-67).  The exam flow requires the
paper to exist, the exam to exist, `exam.paper == paper`, the window to be
open, and a pre-existing attempt for `(exam, user, paper)` — whose *status is
not inspected*; it is stamped `IN_PROGRESS`.  The practice flow creates a
fresh `IN_PROGRESS` attempt (its new ObjectId is the parameter `newId`). -/
def start_test (now : ℤ) (newId : ℕ) (user : ℕ) (body : StartTestBody)
    (st : SubmitState) : Except ApiError (SubmitState × TestAttempt) :=
  match st.papers.find? (fun p => p.pid = body.paper_id) with
  | none => .error (.http 404 "Paper not found")
  | some paper =>
    match body.exam_id with
    | some eid =>
      match st.exams.find? (fun e => e.eid = eid) with
      | none => .error (.http 404 "Exam not found")
      | some exam =>
        if exam.paper_id ≠ paper.pid then .error (.http 409 "Exam paper mismatch")
        else if exam.start_time > now ∨ exam.end_time < now then
          .error (.http 409 "Exam window not open")
        else
          match st.test_attempts.find? (fun t =>
              t.exam = some eid ∧ t.user = user ∧ t.paper_id = paper.pid) with
          | none => .error (.http 404 "TestAttempt session not found")
          | some t =>
            let t' := { t with started_on := some now, status := TestStatus.IN_PROGRESS }
            .ok ({ st with test_attempts :=
                st.test_attempts.map (fun x => if x.tid = t.tid then t' else x) }, t')
    | none =>
      let t' : TestAttempt :=
        { tid := newId, user := user, exam := none, paper_id := paper.pid,
          type := "PRACTICE", status := TestStatus.IN_PROGRESS,
          started_on := some now, ended_on := none,
          total_score := 0, max_total_score := 0, subject_scores := [],
          percentile := none, rank := none }
      .ok ({ st with test_attempts := st.test_attempts ++ [t'] }, t')

structure EndTestBody where
  user_test_id : ℕ
deriving DecidableEq

/-- Endpoint `POST /end` (`end_test`, lines 73-88): looks the attempt up by id and
owner and — without inspecting its current status — stamps it `COMPLETED`. -/
def end_test (now : ℤ) (user : ℕ) (body : EndTestBody) (st : SubmitState) :
    Except ApiError (SubmitState × TestAttempt) :=
  match st.test_attempts.find? (fun t => t.tid = body.user_test_id ∧ t.user = user) with
  | none => .error (.http 404 "TestAttempt session not found")
  | some t =>
    let t' := { t with status := TestStatus.COMPLETED, ended_on := some now }
    .ok ({ st with test_attempts :=
        st.test_attempts.map (fun x => if x.tid = t.tid then t' else x) }, t')

structure SubmitAnswerBody where
  question_id : ℕ
  user_test_id : ℕ
  options_chosen : List String
deriving DecidableEq

/-- The best-effort aggregate update on the attempt after a persisted
submission (lines 195-223; `int(score)` truncation is applied when adding to
the running totals). -/
def updateAggregates (paper : Paper) (q : Question) (scoreInt : ℤ)
    (t : TestAttempt) : TestAttempt :=
  let subj_max := ((paper.subject_max_scores.find?
      (fun ps => ps.1 = q.subject_code)).map Prod.snd).getD 0
  let t1 := { t with total_score := t.total_score + scoreInt,
                     max_total_score := paper.max_score }
  if t1.subject_scores.any (fun ss => ss.subject_code = q.subject_code) then
    { t1 with subject_scores := t1.subject_scores.map (fun ss =>
        if ss.subject_code = q.subject_code then
          { ss with total_score := ss.total_score + scoreInt,
                    max_total_score := subj_max }
        else ss) }
  else
    { t1 with subject_scores := t1.subject_scores ++
        [{ total_score := scoreInt, subject_code := q.subject_code,
           max_total_score := subj_max, percentile := none, rank := none }] }

/-- Endpoint `POST /submit` (`submit_answer`, lines 155-225): resolve the attempt
(409 unless owned and `IN_PROGRESS`), check the time window (403), resolve
the question (404), score (propagating the scorer's errors), then build the
`Submission` — *without its required `paper` reference* — and save it; any
exception from `save()` is reported as the duplicate-submission 409.
A missing paper reference on the attempt would crash the scorer in Python
(`None.paper_questions`); that is modelled as a 500. -/
def submit_answer (now : ℤ) (user : ℕ) (body : SubmitAnswerBody) (st : SubmitState) :
    Except ApiError (SubmitState × Submission) :=
  match st.test_attempts.find? (fun t => t.tid = body.user_test_id ∧ t.user = user) with
  | none => .error (.http 409 "User test not in progress")
  | some t =>
    if t.status ≠ TestStatus.IN_PROGRESS then .error (.http 409 "User test not in progress")
    else if ¬ within_time_window st.exams st.papers now t then
      .error (.http 403 "Submission outside allowed window")
    else
      match st.papers.find? (fun p => p.pid = t.paper_id) with
      | none => .error (.http 500 "Internal Server Error")
      | some paper =>
        match st.questions.find? (fun q => q.qid = body.question_id) with
        | none => .error (.http 404 "Question not found")
        | some q =>
          match score_submission paper q body.options_chosen with
          | .error e => .error e
          | .ok (score, max_score) =>
            let sub : Submission :=
              { user := user, paper := none, question := q.qid, test_attempt := t.tid,
                options_chosen := body.options_chosen, subject_code := q.subject_code,
                max_score := max_score, score := score }
            match saveSubmission st.submissions sub with
            | none => .error (.http 409 "Already submitted for this question")
            | some store' =>
              let t' := updateAggregates paper q (pyInt score) t
              let st' := { st with
                submissions := store',
                test_attempts :=
                  st.test_attempts.map (fun x => if x.tid = t.tid then t' else x) }
              .ok (st', sub)

/-! ## Concrete fixtures used by counterexamples and witnesses -/

/-- A single-correct question: option `"A"` correct (weight 100),
option `"B"` wrong. -/
def qFix : Question :=
  { qid := 10, code := "Q1", type := "single_correct", subject_code := "maths",
    question_options :=
      [{ correct := true, order := 1, weight := 100, code := "A" },
       { correct := false, order := 2, weight := 0, code := "B" }] }

/-- Entry binding `qFix` with `positive_score = 4`, `negative_score = 1`, not
mandatory. -/
def pqFix : PaperQuestion :=
  { mandatory := false, order := 1, question := qFix,
    negative_score := 1, positive_score := 4 }

def paperFix : Paper :=
  { pid := 1, code := "P1", max_score := 4, subject_max_scores := [("maths", 4)],
    duration_minutes := 60, paper_questions := [pqFix] }

def examFix : Exam := { eid := 1, paper_id := 1, start_time := 0, end_time := 1000 }

/-- A competitive attempt currently `IN_PROGRESS`, with no submission yet. -/
def attemptFix : TestAttempt :=
  { tid := 1, user := 1, exam := some 1, paper_id := 1, type := "COMPETITIVE",
    status := TestStatus.IN_PROGRESS, started_on := some 0, ended_on := none,
    total_score := 0, max_total_score := 0, subject_scores := [],
    percentile := none, rank := none }

/-- A fresh state: the attempt is in progress, inside the exam window, and
the `submissions` collection is empty. -/
def stFix : SubmitState :=
  { exams := [examFix], papers := [paperFix], questions := [qFix],
    test_attempts := [attemptFix], submissions := [] }

/-- A multiple-correct question: `"A"` (weight 60) and `"B"` (weight 40)
correct, `"C"` wrong. -/
def qC5 : Question :=
  { qid := 20, code := "Q5", type := "multiple_correct", subject_code := "science",
    question_options :=
      [{ correct := true, order := 1, weight := 60, code := "A" },
       { correct := true, order := 2, weight := 40, code := "B" },
       { correct := false, order := 3, weight := 0, code := "C" }] }

def pqC5 : PaperQuestion :=
  { mandatory := false, order := 1, question := qC5,
    negative_score := 2, positive_score := 10 }

def paperC5 : Paper :=
  { pid := 5, code := "P5", max_score := 10, subject_max_scores := [("science", 10)],
    duration_minutes := 60, paper_questions := [pqC5] }

/-- A mandatory single-correct question for the scorer-divergence
counterexample. -/
def qC10 : Question :=
  { qid := 30, code := "Q10", type := "single_correct", subject_code := "history",
    question_options := [{ correct := true, order := 1, weight := 100, code := "A" }] }

def pqC10 : PaperQuestion :=
  { mandatory := true, order := 1, question := qC10,
    negative_score := 1, positive_score := 5 }

def paperC10 : Paper :=
  { pid := 10, code := "P10", max_score := 5, subject_max_scores := [("history", 5)],
    duration_minutes := 60, paper_questions := [pqC10] }

/-- A competitive attempt that is already `COMPLETED`. -/
def attemptC6 : TestAttempt :=
  { tid := 2, user := 1, exam := some 1, paper_id := 1, type := "COMPETITIVE",
    status := TestStatus.COMPLETED, started_on := some 0, ended_on := some 40,
    total_score := 4, max_total_score := 4, subject_scores := [],
    percentile := none, rank := none }

def stC6 : SubmitState :=
  { exams := [examFix], papers := [paperFix], questions := [qFix],
    test_attempts := [attemptC6], submissions := [] }

/-- A paper whose *cached* `max_score` field (5) disagrees with the sum of
its questions' `positive_score` (4), as after a paper edit. -/
def paperC8 : Paper :=
  { pid := 8, code := "P8", max_score := 5, subject_max_scores := [("maths", 4)],
    duration_minutes := 60, paper_questions := [pqFix] }

/-! # Theorems -/

theorem pyInt_intCast (n : ℤ) : pyInt (n : ℚ) = n := by
  unfold pyInt
  split <;> simp

theorem score_submission_eq_scoreAt (p : Paper) (q : Question) (c : List String)
    (pq : PaperQuestion)
    (h : p.paper_questions.find? (fun e => e.question.code = q.code) = some pq) :
    score_submission p q c = scoreAt pq q c := by
  unfold score_submission
  rw [h]

theorem cntGt_append (l₁ l₂ : List (ℕ × ℤ)) (s : ℤ) :
    cntGt (l₁ ++ l₂) s = cntGt l₁ s + cntGt l₂ s := by
  simp [cntGt, List.countP_append]

theorem cntGt_eq_zero {l : List (ℕ × ℤ)} {s : ℤ} (h : ∀ x ∈ l, x.2 ≤ s) :
    cntGt l s = 0 := by
  simp only [cntGt, List.countP_eq_zero]
  intro x hx
  simpa using not_lt.mpr (h x hx)

theorem cntGt_eq_length {l : List (ℕ × ℤ)} {s : ℤ} (h : ∀ x ∈ l, s < x.2) :
    cntGt l s = l.length := by
  simp only [cntGt, List.countP_eq_length]
  intro x hx
  simpa using h x hx

/-- Loop invariant characterisation of the overall ranking loop: on a
score-descending stream it emits, for a document with score `s`, the rank
`1 + cntGt L s` (standard competition rank) and the percentile
`round4 (100 * (N - cntGt L s) / N)` — i.e. the percentile is computed from
the **zero-based** rank `cntGt L s = rank - 1`. -/
theorem overallGo_spec (N : ℕ) (L : List (ℕ × ℤ))
    (hs : L.Pairwise (fun a b => b.2 ≤ a.2)) :
    ∀ (rest done : List (ℕ × ℤ)) (cr : ℕ) (prev : Option ℤ),
      L = done ++ rest →
      ((done = [] ∧ cr = 0 ∧ prev = none) ∨
        (∃ p, prev = some p ∧ cr = cntGt done p ∧ (∀ x ∈ done, p ≤ x.2) ∧
          ∀ x ∈ rest, x.2 ≤ p)) →
      overallGo N done.length cr prev rest
        = rest.map (fun e => (e.1, 1 + cntGt L e.2,
            roundTo4 (100 * ((N : ℚ) - (cntGt L e.2 : ℚ)) / (N : ℚ)))) := by
  intro rest
  induction rest with
  | nil =>
    intro done cr prev _ _
    simp [overallGo]
  | cons e rest' ih =>
    intro done cr prev hL hinv
    have hsuffix : (e :: rest').Pairwise (fun a b : ℕ × ℤ => b.2 ≤ a.2) :=
      List.Pairwise.sublist (hL ▸ List.sublist_append_right done (e :: rest')) hs
    have hrest' : ∀ x ∈ rest', x.2 ≤ e.2 := (List.pairwise_cons.mp hsuffix).1
    have hdone_ge : ∀ x ∈ done, e.2 ≤ x.2 := by
      intro x hx
      have := (List.pairwise_append.mp (hL ▸ hs)).2.2
      exact this x hx e (List.mem_cons_self e rest')
    have hcnt0 : cntGt (e :: rest') e.2 = 0 := by
      refine cntGt_eq_zero ?_
      intro x hx
      rcases List.mem_cons.mp hx with h | h
      · simp [h]
      · exact hrest' x h
    have hcntL : cntGt L e.2 = cntGt done e.2 := by
      rw [hL, cntGt_append, hcnt0]
      omega
    -- the value current_rank takes for this document
    have hcr' : (if prevLt prev e.2 then done.length else cr) = cntGt L e.2 := by
      rcases hinv with ⟨hd, hc, hp⟩ | ⟨p, hp, hc, hdp, hrp⟩
      · subst hd; subst hc; subst hp
        rw [hcntL]
        simp [prevLt, cntGt]
      · subst hp
        by_cases hlt : e.2 < p
        · have hall : cntGt done e.2 = done.length :=
            cntGt_eq_length (fun x hx => lt_of_lt_of_le hlt (hdp x hx))
          have hpl : prevLt (some p) e.2 = true := by simp [prevLt, hlt]
          rw [hcntL, hall, hpl]
          simp
        · have hep : e.2 = p :=
            le_antisymm (hrp e (List.mem_cons_self e rest')) (not_lt.mp hlt)
          have hpl : prevLt (some p) e.2 = false := by simp [prevLt, hlt]
          rw [hcntL, hpl, hep]
          simp [hc]
    have hstep : overallGo N done.length cr prev (e :: rest')
        = (e.1, (if prevLt prev e.2 then done.length else cr) + 1,
            roundTo4 (100 * ((N : ℚ) -
              ((if prevLt prev e.2 then done.length else cr : ℕ) : ℚ)) / (N : ℚ)))
          :: overallGo N (done.length + 1)
              (if prevLt prev e.2 then done.length else cr) (some e.2) rest' := by
      simp [overallGo]
    rw [hstep, hcr']
    have htail : overallGo N (done ++ [e]).length (cntGt L e.2) (some e.2) rest'
        = rest'.map (fun x => (x.1, 1 + cntGt L x.2,
            roundTo4 (100 * ((N : ℚ) - (cntGt L x.2 : ℚ)) / (N : ℚ)))) := by
      refine ih (done ++ [e]) (cntGt L e.2) (some e.2) (by simp [hL]) ?_
      refine Or.inr ⟨e.2, rfl, ?_, ?_, hrest'⟩
      · rw [hcntL, cntGt_append]
        have : cntGt [e] e.2 = 0 := cntGt_eq_zero (by simp)
        omega
      · intro x hx
        rcases List.mem_append.mp hx with h | h
        · exact hdone_ge x h
        · simp at h
          simp [h]
    rw [List.length_append] at htail
    simp only [List.length_singleton] at htail
    rw [htail]
    simp [Nat.add_comm]

/-- Loop invariant characterisation of the subject-wise ranking loop: on a
score-descending stream it emits rank `1 + cntGt L s` and percentile
`round4 (100 * (N - (1 + cntGt L s)) / N)` — i.e. the percentile is computed
from the **one-based** rank itself. -/
theorem subjectGo_spec (N : ℕ) (L : List (ℕ × ℤ))
    (hs : L.Pairwise (fun a b => b.2 ≤ a.2)) :
    ∀ (rest done : List (ℕ × ℤ)) (cr : ℕ) (prev : Option ℤ),
      L = done ++ rest →
      ((done = [] ∧ cr = 0 ∧ prev = none) ∨
        (∃ p, prev = some p ∧ cr = 1 + cntGt done p ∧ (∀ x ∈ done, p ≤ x.2) ∧
          ∀ x ∈ rest, x.2 ≤ p)) →
      subjectGo N done.length cr prev rest
        = rest.map (fun e => (e.1, 1 + cntGt L e.2,
            roundTo4 (100 * ((N : ℚ) - ((1 + cntGt L e.2 : ℕ) : ℚ)) / (N : ℚ)))) := by
  intro rest
  induction rest with
  | nil =>
    intro done cr prev _ _
    simp [subjectGo]
  | cons e rest' ih =>
    intro done cr prev hL hinv
    have hsuffix : (e :: rest').Pairwise (fun a b : ℕ × ℤ => b.2 ≤ a.2) :=
      List.Pairwise.sublist (hL ▸ List.sublist_append_right done (e :: rest')) hs
    have hrest' : ∀ x ∈ rest', x.2 ≤ e.2 := (List.pairwise_cons.mp hsuffix).1
    have hdone_ge : ∀ x ∈ done, e.2 ≤ x.2 := by
      intro x hx
      have := (List.pairwise_append.mp (hL ▸ hs)).2.2
      exact this x hx e (List.mem_cons_self e rest')
    have hcnt0 : cntGt (e :: rest') e.2 = 0 := by
      refine cntGt_eq_zero ?_
      intro x hx
      rcases List.mem_cons.mp hx with h | h
      · simp [h]
      · exact hrest' x h
    have hcntL : cntGt L e.2 = cntGt done e.2 := by
      rw [hL, cntGt_append, hcnt0]
      omega
    have hcr' : (if prevLt prev e.2 then done.length + 1 else cr) = 1 + cntGt L e.2 := by
      rcases hinv with ⟨hd, hc, hp⟩ | ⟨p, hp, hc, hdp, hrp⟩
      · subst hd; subst hc; subst hp
        rw [hcntL]
        simp [prevLt, cntGt]
      · subst hp
        by_cases hlt : e.2 < p
        · have hall : cntGt done e.2 = done.length :=
            cntGt_eq_length (fun x hx => lt_of_lt_of_le hlt (hdp x hx))
          have hpl : prevLt (some p) e.2 = true := by simp [prevLt, hlt]
          rw [hcntL, hall, hpl]
          simp
          omega
        · have hep : e.2 = p :=
            le_antisymm (hrp e (List.mem_cons_self e rest')) (not_lt.mp hlt)
          have hpl : prevLt (some p) e.2 = false := by simp [prevLt, hlt]
          rw [hcntL, hpl, hep]
          simp [hc]
    have hstep : subjectGo N done.length cr prev (e :: rest')
        = (e.1, (if prevLt prev e.2 then done.length + 1 else cr),
            roundTo4 (100 * ((N : ℚ) -
              ((if prevLt prev e.2 then done.length + 1 else cr : ℕ) : ℚ)) / (N : ℚ)))
          :: subjectGo N (done.length + 1)
              (if prevLt prev e.2 then done.length + 1 else cr) (some e.2) rest' := by
      simp [subjectGo]
    rw [hstep, hcr']
    have htail : subjectGo N (done ++ [e]).length (1 + cntGt L e.2) (some e.2) rest'
        = rest'.map (fun x => (x.1, 1 + cntGt L x.2,
            roundTo4 (100 * ((N : ℚ) - ((1 + cntGt L x.2 : ℕ) : ℚ)) / (N : ℚ)))) := by
      refine ih (done ++ [e]) (1 + cntGt L e.2) (some e.2) (by simp [hL]) ?_
      refine Or.inr ⟨e.2, rfl, ?_, ?_, hrest'⟩
      · rw [hcntL, cntGt_append]
        have : cntGt [e] e.2 = 0 := cntGt_eq_zero (by simp)
        omega
      · intro x hx
        rcases List.mem_append.mp hx with h | h
        · exact hdone_ge x h
        · simp at h
          simp [h]
    rw [List.length_append] at htail
    simp only [List.length_singleton] at htail
    rw [htail]
    simp [Nat.add_comm]

/-- The overall pass on a score-descending stream: ranks are standard
competition ranks, percentiles use the zero-based rank. -/
theorem overallPass_spec (N : ℕ) (docs : List (ℕ × ℤ))
    (hs : docs.Pairwise (fun a b => b.2 ≤ a.2)) :
    overallPass N docs
      = docs.map (fun e => (e.1, 1 + cntGt docs e.2,
          roundTo4 (100 * ((N : ℚ) - (cntGt docs e.2 : ℚ)) / (N : ℚ)))) := by
  have h := overallGo_spec N docs hs docs [] 0 none (by simp) (Or.inl ⟨rfl, rfl, rfl⟩)
  simpa [overallPass] using h

/-- The subject-wise pass on a score-descending stream: ranks are standard
competition ranks, percentiles use the one-based rank. -/
theorem subjectPass_spec (N : ℕ) (docs : List (ℕ × ℤ))
    (hs : docs.Pairwise (fun a b => b.2 ≤ a.2)) :
    subjectPass N docs
      = docs.map (fun e => (e.1, 1 + cntGt docs e.2,
          roundTo4 (100 * ((N : ℚ) - ((1 + cntGt docs e.2 : ℕ) : ℚ)) / (N : ℚ)))) := by
  have h := subjectGo_spec N docs hs docs [] 0 none (by simp) (Or.inl ⟨rfl, rfl, rfl⟩)
  simpa [subjectPass] using h

theorem proj_applyOverall (u : List (ℕ × ℕ × ℚ)) (a : TestAttempt) :
    proj (applyOverall u a) = proj a := by
  unfold applyOverall
  cases h : u.find? (fun x => x.1 = a.tid) <;> simp [proj]

theorem proj_applySubj (s : String) (u : List (ℕ × ℕ × ℚ)) (a : TestAttempt) :
    proj (applySubj s u a) = proj a := by
  unfold applySubj
  cases h : u.find? (fun x => x.1 = a.tid)
  · simp
  · simp only [proj, List.map_map, Prod.mk.injEq]
    refine ⟨trivial, trivial, trivial, trivial, ?_⟩
    refine List.map_congr_left ?_
    intro ss _
    by_cases hc : ss.subject_code = s <;> simp [hc]

theorem isActiveFor_proj {a b : TestAttempt} (eid : ℕ) (h : proj a = proj b) :
    isActiveFor eid a = isActiveFor eid b := by
  unfold proj at h
  simp only [Prod.mk.injEq] at h
  simp [isActiveFor, h.1, h.2.1, h.2.2.1]

theorem filter_proj_congr (eid : ℕ) :
    ∀ l₁ l₂ : List TestAttempt, l₁.map proj = l₂.map proj →
      (l₁.filter (isActiveFor eid)).map proj = (l₂.filter (isActiveFor eid)).map proj := by
  intro l₁
  induction l₁ with
  | nil =>
    intro l₂ h
    have : l₂ = [] := List.map_eq_nil.mp h.symm
    simp [this]
  | cons a l₁ ih =>
    intro l₂ h
    cases l₂ with
    | nil => simp at h
    | cons b l₂' =>
      simp only [List.map_cons, List.cons.injEq] at h
      obtain ⟨hab, htl⟩ := h
      have hact := isActiveFor_proj eid hab
      by_cases ha : isActiveFor eid a = true
      · have hb : isActiveFor eid b = true := by rw [← hact]; exact ha
        simp [List.filter_cons, ha, hb, hab, ih l₂' htl]
      · have hb : ¬ isActiveFor eid b = true := by rw [← hact]; exact ha
        simp [List.filter_cons, ha, hb, ih l₂' htl]

theorem map_docs_from_proj (l : List TestAttempt) :
    l.map (fun a => (a.tid, a.total_score))
      = (l.map proj).map (fun x => (x.1, x.2.2.2.1)) := by
  rw [List.map_map]
  rfl

theorem activeDocs_congr (eid : ℕ) {l₁ l₂ : List TestAttempt}
    (h : l₁.map proj = l₂.map proj) : activeDocs eid l₁ = activeDocs eid l₂ := by
  unfold activeDocs
  rw [map_docs_from_proj, map_docs_from_proj, filter_proj_congr eid l₁ l₂ h]

theorem bucket_find?_from_proj (s : String) (t : ℕ) :
    ∀ bs : List TestSubjectScore,
      ((bs.map (fun ss => (ss.subject_code, ss.total_score))).find?
          (fun y => y.1 = s)).map (fun y => (t, y.2))
        = (bs.find? (fun ss => ss.subject_code = s)).map
            (fun ss => (t, ss.total_score)) := by
  intro bs
  induction bs with
  | nil => rfl
  | cons b bs ih =>
    by_cases hc : b.subject_code = s
    · rw [List.map_cons, List.find?_cons_of_pos _ (by simp [hc]),
        List.find?_cons_of_pos _ (by simp [hc])]
      simp
    · rw [List.map_cons, List.find?_cons_of_neg _ (by simp [hc]),
        List.find?_cons_of_neg _ (by simp [hc])]
      exact ih

theorem map_sdoc_from_proj (s : String) (l : List TestAttempt) :
    l.filterMap (fun a =>
        (a.subject_scores.find? (fun ss => ss.subject_code = s)).map
          (fun ss => (a.tid, ss.total_score)))
      = (l.map proj).filterMap (fun x =>
          (x.2.2.2.2.find? (fun y => y.1 = s)).map (fun y => (x.1, y.2))) := by
  rw [List.filterMap_map]
  refine List.filterMap_congr ?_
  intro a _
  exact (bucket_find?_from_proj s a.tid a.subject_scores).symm

theorem subjDocsOf_congr (eid : ℕ) (s : String) {l₁ l₂ : List TestAttempt}
    (h : l₁.map proj = l₂.map proj) : subjDocsOf eid s l₁ = subjDocsOf eid s l₂ := by
  unfold subjDocsOf
  rw [map_sdoc_from_proj, map_sdoc_from_proj, filter_proj_congr eid l₁ l₂ h]

theorem activeLen_congr (eid : ℕ) {l₁ l₂ : List TestAttempt}
    (h : l₁.map proj = l₂.map proj) :
    (l₁.filter (isActiveFor eid)).length = (l₂.filter (isActiveFor eid)).length := by
  have := congrArg List.length (filter_proj_congr eid l₁ l₂ h)
  simpa using this

theorem applyPlan_eq_map (plan : List RankUpd) :
    ∀ l : List TestAttempt, applyPlan plan l = l.map (applyChain plan) := by
  induction plan with
  | nil =>
    intro l
    have h : applyChain ([] : List RankUpd) = fun a => a := rfl
    simp [applyPlan, h]
  | cons u rest ih =>
    intro l
    have : applyPlan (u :: rest) l = applyPlan rest (l.map (applyUpd u)) := rfl
    rw [this, ih, List.map_map]
    rfl

theorem proj_applyUpd (u : RankUpd) (a : TestAttempt) : proj (applyUpd u a) = proj a := by
  cases u with
  | overall v => exact proj_applyOverall v a
  | subj s v => exact proj_applySubj s v a

theorem tid_applyUpd (u : RankUpd) (a : TestAttempt) : (applyUpd u a).tid = a.tid := by
  have := proj_applyUpd u a
  unfold proj at this
  simpa using congrArg Prod.fst this

theorem map_proj_applyUpd (u : RankUpd) (l : List TestAttempt) :
    (l.map (applyUpd u)).map proj = l.map proj := by
  rw [List.map_map]
  refine List.map_congr_left ?_
  intro a _
  exact proj_applyUpd u a

theorem map_proj_applyPlan (plan : List RankUpd) :
    ∀ l : List TestAttempt, (applyPlan plan l).map proj = l.map proj := by
  induction plan with
  | nil => intro l; rfl
  | cons u rest ih =>
    intro l
    have : applyPlan (u :: rest) l = applyPlan rest (l.map (applyUpd u)) := rfl
    rw [this, ih, map_proj_applyUpd]

theorem applyOverall_idem (u : List (ℕ × ℕ × ℚ)) (a : TestAttempt) :
    applyOverall u (applyOverall u a) = applyOverall u a := by
  unfold applyOverall
  cases h : u.find? (fun x => x.1 = a.tid) <;> simp [h]

theorem applySubj_idem (s : String) (u : List (ℕ × ℕ × ℚ)) (a : TestAttempt) :
    applySubj s u (applySubj s u a) = applySubj s u a := by
  unfold applySubj
  cases h : u.find? (fun x => x.1 = a.tid)
  · simp [h]
  · simp only [h, List.map_map]
    congr 1
    refine List.map_congr_left ?_
    intro ss _
    by_cases hc : ss.subject_code = s <;> simp [hc]

theorem applyUpd_idem (u : RankUpd) (a : TestAttempt) :
    applyUpd u (applyUpd u a) = applyUpd u a := by
  cases u with
  | overall v => exact applyOverall_idem v a
  | subj s v => exact applySubj_idem s v a

theorem overall_subj_comm (u v : List (ℕ × ℕ × ℚ)) (s : String) (a : TestAttempt) :
    applyOverall u (applySubj s v a) = applySubj s v (applyOverall u a) := by
  unfold applyOverall applySubj
  cases h1 : u.find? (fun x => x.1 = a.tid) <;>
    cases h2 : v.find? (fun x => x.1 = a.tid) <;>
      simp [h1, h2]

theorem subj_subj_comm (s s' : String) (hss : s ≠ s') (u v : List (ℕ × ℕ × ℚ))
    (a : TestAttempt) :
    applySubj s u (applySubj s' v a) = applySubj s' v (applySubj s u a) := by
  unfold applySubj
  cases h1 : u.find? (fun x => x.1 = a.tid) <;>
    cases h2 : v.find? (fun x => x.1 = a.tid) <;>
      simp [h1, h2, List.map_map]
  intro ss _
  by_cases hc : ss.subject_code = s <;> by_cases hc' : ss.subject_code = s'
  · exact absurd (hc.symm.trans hc') hss
  · simp [hc, hc', hss, Ne.symm hss]
  · simp [hc, hc', hss, Ne.symm hss]
  · simp [hc, hc', hss, Ne.symm hss]

theorem chain_comm (u : RankUpd) :
    ∀ (plan : List RankUpd),
      (∀ v ∈ plan, ∀ a, applyUpd u (applyUpd v a) = applyUpd v (applyUpd u a)) →
      ∀ a, applyUpd u (applyChain plan a) = applyChain plan (applyUpd u a) := by
  intro plan
  induction plan with
  | nil => intro _ a; rfl
  | cons v rest ih =>
    intro h a
    have hstep : applyChain (v :: rest) a = applyChain rest (applyUpd v a) := rfl
    have hstep' : applyChain (v :: rest) (applyUpd u a)
        = applyChain rest (applyUpd v (applyUpd u a)) := rfl
    rw [hstep, hstep', ih (fun w hw => h w (List.mem_cons_of_mem v hw)),
      h v (List.mem_cons_self v rest)]

theorem chain_absorb :
    ∀ (plan : List RankUpd),
      (∀ w ∈ plan, ∀ x ∈ plan, ∀ a, applyUpd w (applyUpd x a) = applyUpd x (applyUpd w a)) →
      ∀ a, applyChain plan (applyChain plan a) = applyChain plan a := by
  intro plan
  induction plan with
  | nil => intro _ a; rfl
  | cons u rest ih =>
    intro h a
    have hcons : ∀ b, applyChain (u :: rest) b = applyChain rest (applyUpd u b) :=
      fun b => rfl
    rw [hcons, hcons, chain_comm u rest
      (fun v hv a' => h u (List.mem_cons_self u rest) v (List.mem_cons_of_mem u hv) a')
      (applyUpd u a), applyUpd_idem,
      ih (fun w hw x hx a' => h w (List.mem_cons_of_mem u hw) x (List.mem_cons_of_mem u hx) a')]

theorem applyPlan_absorb (plan : List RankUpd)
    (h : ∀ w ∈ plan, ∀ x ∈ plan, ∀ a, applyUpd w (applyUpd x a) = applyUpd x (applyUpd w a))
    (l : List TestAttempt) :
    applyPlan plan (applyPlan plan l) = applyPlan plan l := by
  rw [applyPlan_eq_map, applyPlan_eq_map, List.map_map]
  refine List.map_congr_left ?_
  intro a _
  exact chain_absorb plan h a

theorem subjUpdFor_congr (eid : ℕ) (s : String) {l₁ l₂ : List TestAttempt}
    (h : l₁.map proj = l₂.map proj) : subjUpdFor eid l₁ s = subjUpdFor eid l₂ s := by
  unfold subjUpdFor
  rw [subjDocsOf_congr eid s h]

theorem planFor_congr (eid : ℕ) (subjects : List String) {l₁ l₂ : List TestAttempt}
    (h : l₁.map proj = l₂.map proj) :
    planFor eid l₁ subjects = planFor eid l₂ subjects := by
  unfold planFor
  rw [activeDocs_congr eid h, activeLen_congr eid h]
  congr 1
  refine List.filterMap_congr ?_
  intro s _
  exact subjUpdFor_congr eid s h

/-- The subject-by-subject `foldl` of `conclude_exam` — whose cursors re-read
the *current* collection state — issues exactly the batches computed from the
pre-run state `base`, because the writes never change the projection the
cursors read. -/
theorem conclude_foldl_plan (eid : ℕ) (base : List TestAttempt) :
    ∀ (subjects : List String) (acc : List TestAttempt),
      acc.map proj = base.map proj →
      subjects.foldl (fun acc subj =>
        let d := subjDocsOf eid subj acc
        if d.length = 0 then acc
        else acc.map (applySubj subj (subjectGo d.length 0 0 none d))) acc
      = applyPlan (subjects.filterMap (subjUpdFor eid base)) acc := by
  intro subjects
  induction subjects with
  | nil => intro acc _; rfl
  | cons s rest ih =>
    intro acc hacc
    have hd : subjDocsOf eid s acc = subjDocsOf eid s base := subjDocsOf_congr eid s hacc
    by_cases hz : (subjDocsOf eid s base).length = 0
    · have hskip : subjUpdFor eid base s = none := by
        unfold subjUpdFor
        simp [hz]
      simp only [List.foldl_cons, List.filterMap_cons, hskip, hd, hz, if_pos]
      exact ih acc hacc
    · have htake : subjUpdFor eid base s
          = some (.subj s (subjectGo (subjDocsOf eid s base).length 0 0 none
              (subjDocsOf eid s base))) := by
        unfold subjUpdFor
        simp [hz]
      have hplan : applyPlan ((RankUpd.subj s (subjectGo (subjDocsOf eid s base).length 0 0 none
              (subjDocsOf eid s base))) :: rest.filterMap (subjUpdFor eid base)) acc
          = applyPlan (rest.filterMap (subjUpdFor eid base))
              (acc.map (applySubj s (subjectGo (subjDocsOf eid s base).length 0 0 none
                (subjDocsOf eid s base)))) := rfl
      simp only [List.foldl_cons, List.filterMap_cons, htake, hd, hz, if_neg, ite_false]
      rw [hplan]
      refine ih _ ?_
      exact (map_proj_applyUpd (RankUpd.subj s (subjectGo (subjDocsOf eid s base).length 0 0
        none (subjDocsOf eid s base))) acc).trans hacc

/-- With at least one active attempt, a conclusion run rewrites the
collection by exactly the batches `planFor` computed from the pre-run
state. -/
theorem conclude_attempts_eq_plan (eid : ℕ) (examMax : ℤ) (paper : Option Paper)
    (attempts : List TestAttempt)
    (hN : (attempts.filter (isActiveFor eid)).length ≠ 0) :
    (conclude_exam eid examMax paper attempts).attempts
      = applyPlan (planFor eid attempts (paperSubjects paper)) attempts := by
  unfold conclude_exam
  simp only [if_neg hN]
  exact conclude_foldl_plan eid attempts (paperSubjects paper)
    (attempts.map (applyOverall (overallGo (attempts.filter (isActiveFor eid)).length 0 0 none
      (activeDocs eid attempts))))
    ((map_proj_applyUpd (RankUpd.overall (overallGo (attempts.filter (isActiveFor eid)).length
      0 0 none (activeDocs eid attempts))) attempts))

/-- Every pair of batches issued by one conclusion run commutes: the overall
batch and a subject batch touch disjoint fields, two batches for distinct
subjects touch disjoint buckets, and two batches for the same subject are the
same batch. -/
theorem planFor_comm (eid : ℕ) (l : List TestAttempt) (subjects : List String) :
    ∀ w ∈ planFor eid l subjects, ∀ x ∈ planFor eid l subjects,
      ∀ a, applyUpd w (applyUpd x a) = applyUpd x (applyUpd w a) := by
  have hclass : ∀ y ∈ planFor eid l subjects,
      y = RankUpd.overall (overallGo (l.filter (isActiveFor eid)).length 0 0 none
            (activeDocs eid l))
      ∨ ∃ s, y = RankUpd.subj s (subjectGo (subjDocsOf eid s l).length 0 0 none
            (subjDocsOf eid s l)) := by
    intro y hy
    rcases List.mem_cons.mp hy with h | h
    · exact Or.inl h
    · right
      rcases List.mem_filterMap.mp h with ⟨s, _, hs⟩
      refine ⟨s, ?_⟩
      unfold subjUpdFor at hs
      by_cases hz : (subjDocsOf eid s l).length = 0
      · simp [hz] at hs
      · simp only [hz, if_neg, ite_false, Option.some.injEq] at hs
        exact hs.symm
  intro w hw x hx a
  rcases hclass w hw with hwo | ⟨sw, hws⟩ <;> rcases hclass x hx with hxo | ⟨sx, hxs⟩
  · rw [hwo, hxo]
  · rw [hwo, hxs]
    exact overall_subj_comm _ _ _ a
  · rw [hws, hxo]
    exact (overall_subj_comm _ _ _ a).symm
  · by_cases hss : sw = sx
    · subst hss
      rw [hws, hxs]
    · rw [hws, hxs]
      exact subj_subj_comm sw sx hss _ _ a

/-- C7: The conclusion pipeline is idempotent: running `conclude_exam` twice
in succession on an unchanged attempt set leaves every attempt with the same
rank and percentile values (overall and per subject) as a single run —
rank/percentile fields are overwritten with freshly computed values and never
accumulate.  (Stated as: the attempt collection after the second run equals
the collection after the first, for any exam `max_score` fields `m₁`, `m₂`
the two runs may start from.) -/
theorem C7_conclude_idempotent (eid : ℕ) (m₁ m₂ : ℤ) (paper : Option Paper)
    (attempts : List TestAttempt) :
    (conclude_exam eid m₂ paper (conclude_exam eid m₁ paper attempts).attempts).attempts
      = (conclude_exam eid m₁ paper attempts).attempts := by
  by_cases hN : (attempts.filter (isActiveFor eid)).length = 0
  · have h1 : (conclude_exam eid m₁ paper attempts).attempts = attempts := by
      unfold conclude_exam
      simp [hN]
    rw [h1]
    unfold conclude_exam
    simp [hN]
  · have h1 : (conclude_exam eid m₁ paper attempts).attempts
        = applyPlan (planFor eid attempts (paperSubjects paper)) attempts :=
      conclude_attempts_eq_plan eid m₁ paper attempts hN
    have hproj : (applyPlan (planFor eid attempts (paperSubjects paper)) attempts).map proj
        = attempts.map proj :=
      map_proj_applyPlan _ attempts
    have hN2 : ((applyPlan (planFor eid attempts (paperSubjects paper)) attempts).filter
        (isActiveFor eid)).length ≠ 0 := by
      rw [activeLen_congr eid hproj]
      exact hN
    have h2 := conclude_attempts_eq_plan eid m₂ paper
      (applyPlan (planFor eid attempts (paperSubjects paper)) attempts) hN2
    rw [h1, h2, planFor_congr eid (paperSubjects paper) hproj,
      applyPlan_absorb _ (planFor_comm eid attempts (paperSubjects paper))]

/-! ## Helper lemmas for the scoring engine -/

theorem byCode_isSome_of_mem_correct (q : Question) (c : String)
    (h : c ∈ correctCodes q) : (byCode q c).isSome := by
  unfold correctCodes at h
  rcases List.mem_map.mp h with ⟨o, ho, hoc⟩
  have hom : o ∈ q.question_options := (List.mem_filter.mp ho).1
  unfold byCode
  rw [List.find?_isSome]
  exact ⟨o, List.mem_reverse.mpr hom, by simp [hoc]⟩

theorem find?_code_nodup :
    ∀ (l : List QuestionOption), (l.map (fun o => o.code)).Nodup →
      ∀ o ∈ l, l.find? (fun x => x.code = o.code) = some o := by
  intro l
  induction l with
  | nil => intro _ o ho; simp at ho
  | cons h t ih =>
    intro hnd o ho
    simp only [List.map_cons, List.nodup_cons] at hnd
    rcases List.mem_cons.mp ho with rfl | hot
    · exact List.find?_cons_of_pos _ (by simp)
    · have hne : h.code ≠ o.code := by
        intro he
        exact hnd.1 (he ▸ List.mem_map.mpr ⟨o, hot, rfl⟩)
      rw [List.find?_cons_of_neg _ (by simp [hne])]
      exact ih hnd.2 o hot

theorem byCode_eq_of_nodup (q : Question)
    (hnd : (q.question_options.map (fun o => o.code)).Nodup)
    (o : QuestionOption) (ho : o ∈ q.question_options) :
    byCode q o.code = some o := by
  unfold byCode
  refine find?_code_nodup q.question_options.reverse ?_ o (List.mem_reverse.mpr ho)
  rw [List.map_reverse]
  exact List.nodup_reverse.mpr hnd

theorem correctCodes_nodup (q : Question)
    (hnd : (q.question_options.map (fun o => o.code)).Nodup) :
    (correctCodes q).Nodup := by
  unfold correctCodes
  exact List.Nodup.sublist
    (List.Sublist.map (fun o => o.code) (List.filter_sublist q.question_options)) hnd

/-- On a chosen set equal (as a set) to the correct-option set, the
accumulated weight is the total weight of the correct options. -/
theorem chosenWeight_full (q : Question)
    (hnd : (q.question_options.map (fun o => o.code)).Nodup)
    (chosen : List String) (hiff : ∀ c, c ∈ chosen ↔ c ∈ correctCodes q) :
    chosenWeight q chosen
      = ((q.question_options.filter (fun o => o.correct)).map (fun o => o.weight)).sum := by
  unfold chosenWeight
  have hperm : List.Perm chosen.dedup (correctCodes q) := by
    rw [List.perm_ext_iff_of_nodup (List.nodup_dedup chosen) (correctCodes_nodup q hnd)]
    intro c
    rw [List.mem_dedup]
    exact hiff c
  rw [List.Perm.sum_eq (List.Perm.map _ hperm)]
  unfold correctCodes
  rw [List.map_map]
  refine congrArg List.sum (List.map_congr_left ?_)
  intro o ho
  have hom : o ∈ q.question_options := (List.mem_filter.mp ho).1
  have hoc : o.correct = true := by simpa using (List.mem_filter.mp ho).2
  simp [Function.comp, byCode_eq_of_nodup q hnd o hom, hoc]

/-- C4: For every `single_correct` question bound in the paper with marking
rule `(positive_score, negative_score, mandatory)`: a chosen set containing
the correct option (and no wrong or unknown code) scores
`(positive_score, positive_score)`; a chosen set containing any incorrect or
unknown option scores `(-negative_score, positive_score)`; an empty chosen
set scores `(0, positive_score)` when the rule is not mandatory, and fails
with the MandatoryUnanswered error (so the caller records no submission)
when it is mandatory. -/
theorem C4_single_correct_scoring (p : Paper) (q : Question) (pq : PaperQuestion)
    (hfind : p.paper_questions.find? (fun e => e.question.code = q.code) = some pq)
    (htype : q.type = "single_correct") :
    (∀ chosen : List String, chosen ≠ [] → (∀ c ∈ chosen, c ∈ correctCodes q) →
        score_submission p q chosen = .ok ((pq.positive_score : ℚ), pq.positive_score))
    ∧ (∀ chosen : List String,
        (∃ c ∈ chosen, (byCode q c).isNone ∨ c ∉ correctCodes q) →
        score_submission p q chosen = .ok (-(pq.negative_score : ℚ), pq.positive_score))
    ∧ (pq.mandatory = false →
        score_submission p q [] = .ok (0, pq.positive_score))
    ∧ (pq.mandatory = true →
        score_submission p q []
          = .error (.http 409 "Mandatory question needs to be answered")) := by
  refine ⟨?_, ?_, ?_, ?_⟩
  · intro chosen hne hall
    rw [score_submission_eq_scoreAt p q chosen pq hfind]
    unfold scoreAt
    have h1 : ¬(chosen = [] ∧ pq.mandatory) := fun h => hne h.1
    have h2 : chosen.any (fun c => (byCode q c).isNone) = false := by
      simp only [List.any_eq_false]
      intro c hc
      rcases Option.isSome_iff_exists.mp (byCode_isSome_of_mem_correct q c (hall c hc)) with
        ⟨o, ho⟩
      simp [ho]
    have h3 : chosen.any (fun c => !(decide (c ∈ correctCodes q))) = false := by
      simp only [List.any_eq_false]
      intro c hc
      simp [hall c hc]
    rw [if_neg h1, h2, h3]
    simp [htype, hne]
  · intro chosen hex
    obtain ⟨c, hc, hcase⟩ := hex
    rw [score_submission_eq_scoreAt p q chosen pq hfind]
    unfold scoreAt
    have h1 : ¬(chosen = [] ∧ pq.mandatory) := by
      rintro ⟨h, -⟩
      subst h
      simp at hc
    rw [if_neg h1]
    by_cases hinv : chosen.any (fun c => (byCode q c).isNone) = true
    · simp [hinv]
    · have hfalse : chosen.any (fun c => (byCode q c).isNone) = false := by
        simpa using hinv
      have hkn := List.any_eq_false.mp hfalse
      have hnc : c ∉ correctCodes q := by
        rcases hcase with h | h
        · exact absurd h (by simpa using hkn c hc)
        · exact h
      have hwrong : chosen.any (fun c => !(decide (c ∈ correctCodes q))) = true :=
        List.any_eq_true.mpr ⟨c, hc, by simp [hnc]⟩
      simp [hwrong, hfalse]
  · intro hm
    rw [score_submission_eq_scoreAt p q [] pq hfind]
    unfold scoreAt
    simp [htype, hm]
  · intro hm
    rw [score_submission_eq_scoreAt p q [] pq hfind]
    unfold scoreAt
    simp [hm]

/-- C5: For every `multiple_correct` question bound in the paper whose
correct-option weights sum to 100 (and whose option codes are distinct, as
the model's unique index on option codes guarantees): the full correct set
scores `positive_score`; any non-empty all-correct chosen set scores
`positive_score × (sum of the chosen options' weights) / 100`; any chosen
set containing an incorrect or unknown option scores the full
`(-negative_score, positive_score)` penalty, not a partial one. -/
theorem C5_multiple_correct_scoring (p : Paper) (q : Question) (pq : PaperQuestion)
    (hfind : p.paper_questions.find? (fun e => e.question.code = q.code) = some pq)
    (htype : q.type = "multiple_correct")
    (hnd : (q.question_options.map (fun o => o.code)).Nodup)
    (hsum : ((q.question_options.filter (fun o => o.correct)).map
        (fun o => o.weight)).sum = 100) :
    (∀ chosen : List String, (∀ c, c ∈ chosen ↔ c ∈ correctCodes q) →
        score_submission p q chosen = .ok ((pq.positive_score : ℚ), pq.positive_score))
    ∧ (∀ chosen : List String, chosen ≠ [] → (∀ c ∈ chosen, c ∈ correctCodes q) →
        score_submission p q chosen
          = .ok (((chosenWeight q chosen : ℚ) * (pq.positive_score : ℚ)) / 100,
              pq.positive_score))
    ∧ (∀ chosen : List String,
        (∃ c ∈ chosen, (byCode q c).isNone ∨ c ∉ correctCodes q) →
        score_submission p q chosen = .ok (-(pq.negative_score : ℚ), pq.positive_score)) := by
  have hsubsetScore : ∀ chosen : List String, chosen ≠ [] →
      (∀ c ∈ chosen, c ∈ correctCodes q) →
      score_submission p q chosen
        = .ok (((chosenWeight q chosen : ℚ) * (pq.positive_score : ℚ)) / 100,
            pq.positive_score) := by
    intro chosen hne hall
    rw [score_submission_eq_scoreAt p q chosen pq hfind]
    unfold scoreAt
    have h1 : ¬(chosen = [] ∧ pq.mandatory) := fun h => hne h.1
    have h2 : chosen.any (fun c => (byCode q c).isNone) = false := by
      simp only [List.any_eq_false]
      intro c hc
      rcases Option.isSome_iff_exists.mp (byCode_isSome_of_mem_correct q c (hall c hc)) with
        ⟨o, ho⟩
      simp [ho]
    have h3 : chosen.any (fun c => !(decide (c ∈ correctCodes q))) = false := by
      simp only [List.any_eq_false]
      intro c hc
      simp [hall c hc]
    have hne' : ¬ q.type = "single_correct" := by
      rw [htype]
      simp
    rw [if_neg h1, h2, h3]
    simp [htype, hne']
  refine ⟨?_, hsubsetScore, ?_⟩
  · intro chosen hiff
    have hnonempty : chosen ≠ [] := by
      intro h
      subst h
      have : ∃ o ∈ q.question_options, o.correct = true := by
        by_contra hno
        push_neg at hno
        have : q.question_options.filter (fun o => o.correct) = [] := by
          rw [List.filter_eq_nil]
          intro o ho
          simpa using hno o ho
        rw [this] at hsum
        simp at hsum
      rcases this with ⟨o, ho, hoc⟩
      have : o.code ∈ correctCodes q :=
        List.mem_map.mpr ⟨o, List.mem_filter.mpr ⟨ho, by simp [hoc]⟩, rfl⟩
      exact absurd ((hiff o.code).mpr this) (by simp)
    have hcw : chosenWeight q chosen = 100 := by
      rw [chosenWeight_full q hnd chosen hiff, hsum]
    rw [hsubsetScore chosen hnonempty (fun c hc => (hiff c).mp hc), hcw]
    have : ((100 : ℤ) : ℚ) * (pq.positive_score : ℚ) / 100 = (pq.positive_score : ℚ) := by
      push_cast
      ring
    rw [this]
  · intro chosen hex
    obtain ⟨c, hc, hcase⟩ := hex
    rw [score_submission_eq_scoreAt p q chosen pq hfind]
    unfold scoreAt
    have h1 : ¬(chosen = [] ∧ pq.mandatory) := by
      rintro ⟨h, -⟩
      subst h
      simp at hc
    rw [if_neg h1]
    by_cases hinv : chosen.any (fun c => (byCode q c).isNone) = true
    · simp [hinv]
    · have hfalse : chosen.any (fun c => (byCode q c).isNone) = false := by
        simpa using hinv
      have hkn := List.any_eq_false.mp hfalse
      have hnc : c ∉ correctCodes q := by
        rcases hcase with h | h
        · exact absurd h (by simpa using hkn c hc)
        · exact h
      have hwrong : chosen.any (fun c => !(decide (c ∈ correctCodes q))) = true :=
        List.any_eq_true.mpr ⟨c, hc, by simp [hnc]⟩
      simp [hwrong, hfalse]

/-! ## Relating the live scorer and the simulation scorer (for C10) -/

theorem pyInt_zero : pyInt 0 = 0 := by
  simp [pyInt]

theorem pyInt_neg_int (n : ℤ) : pyInt (-(n : ℚ)) = -n := by
  have h : (-(n : ℚ)) = ((-n : ℤ) : ℚ) := by push_cast; ring
  rw [h, pyInt_intCast]

theorem simScoreAt_of_ok (pq : PaperQuestion) (q : Question) (chosen : List String)
    (s : ℚ) (m : ℤ) (h : scoreAt pq q chosen = .ok (s, m)) :
    simScoreAt pq q chosen = (pyInt s, m) := by
  unfold scoreAt at h
  unfold simScoreAt
  by_cases h1 : chosen = [] ∧ pq.mandatory
  · rw [if_pos h1] at h
    exact absurd h (by simp)
  · rw [if_neg h1] at h
    split_ifs at h ⊢ <;>
      simp only [Except.ok.injEq, Prod.mk.injEq] at h <;>
      obtain ⟨hs, hm⟩ := h <;>
      rw [← hs, ← hm] <;>
      simp [pyInt_neg_int, pyInt_zero, pyInt_intCast]

theorem scoreAt_error_eq (pq : PaperQuestion) (q : Question) (chosen : List String)
    (e : ApiError) (h : scoreAt pq q chosen = .error e) :
    e = .http 409 "Mandatory question needs to be answered"
      ∧ chosen = [] ∧ pq.mandatory = true := by
  unfold scoreAt at h
  by_cases h1 : chosen = [] ∧ pq.mandatory
  · rw [if_pos h1] at h
    simp only [Except.error.injEq] at h
    exact ⟨h.symm, h1.1, h1.2⟩
  · rw [if_neg h1] at h
    split_ifs at h <;> simp at h

theorem simScoreAt_of_mandatory (pq : PaperQuestion) (q : Question) (chosen : List String)
    (h : scoreAt pq q chosen
      = .error (.http 409 "Mandatory question needs to be answered")) :
    simScoreAt pq q chosen = (0, pq.positive_score) := by
  obtain ⟨-, hc, -⟩ := scoreAt_error_eq pq q chosen _ h
  subst hc
  unfold simScoreAt
  split_ifs <;> simp_all [chosenWeight, pyInt]

/-! ## Claims C1 and C2: ranks and percentiles of the two passes -/

/-- C1 (counterexample): the claim says every ranking pass — including the
overall pass over `total_score` — gives an attempt at rank `r` the percentile
`100 × (N − r) / N`, and in particular percentiles `75.0, 75.0, 25.0, 0.0`
for total scores `[90, 90, 80, 70]`.  The overall pass of `conclude_exam`
actually computes the percentile from the zero-based rank `current_rank`
(line 56), yielding `100.0, 100.0, 50.0, 25.0` on that input. -/
theorem C1_counterexample :
    (overallPass 4 [(1, 90), (2, 90), (3, 80), (4, 70)]).map (fun r => r.2.2)
        = [100, 100, 50, 25]
    ∧ ([100, 100, 50, 25] : List ℚ) ≠ [75, 75, 25, 0] := by
  refine ⟨?_, by norm_num⟩
  norm_num [overallPass, overallGo, prevLt, roundTo4]

/-- C1 (amended): on a score-descending stream of `N`-participant documents,
both passes assign the standard competition rank `r = 1 + #{strictly
greater}`; the *subject-wise* pass writes the percentile
`100 × (N − r) / N` (rounded to 4 places) exactly as the claim states, while
the *overall* pass writes `100 × (N − (r − 1)) / N` — the same formula
applied to the zero-based rank.  For `[90, 90, 80, 70]` this gives overall
percentiles `100.0, 100.0, 50.0, 25.0` and subject-wise percentiles
`75.0, 75.0, 25.0, 0.0`. -/
theorem C1_percentile_formulas (N : ℕ) (docs : List (ℕ × ℤ))
    (hs : docs.Pairwise (fun a b => b.2 ≤ a.2)) :
    overallPass N docs
      = docs.map (fun e => (e.1, 1 + cntGt docs e.2,
          roundTo4 (100 * ((N : ℚ) - ((1 + cntGt docs e.2 : ℕ) : ℚ) + 1) / (N : ℚ))))
    ∧ subjectPass N docs
      = docs.map (fun e => (e.1, 1 + cntGt docs e.2,
          roundTo4 (100 * ((N : ℚ) - ((1 + cntGt docs e.2 : ℕ) : ℚ)) / (N : ℚ)))) := by
  constructor
  · rw [overallPass_spec N docs hs]
    refine List.map_congr_left ?_
    intro e _
    have h : 100 * ((N : ℚ) - ((1 + cntGt docs e.2 : ℕ) : ℚ) + 1) / (N : ℚ)
        = 100 * ((N : ℚ) - (cntGt docs e.2 : ℚ)) / (N : ℚ) := by
      push_cast
      ring
    rw [h]
  · exact subjectPass_spec N docs hs

/-- Witness for C1's amended theorem at the spec's own example stream. -/
theorem C1_percentile_formulas_witness :
    ([((1 : ℕ), (90 : ℤ)), (2, 90), (3, 80), (4, 70)].Pairwise
        (fun a b => b.2 ≤ a.2))
    ∧ (overallPass 4 [(1, 90), (2, 90), (3, 80), (4, 70)]
        = [(1, 90), (2, 90), (3, 80), (4, 70)].map (fun e =>
            (e.1, 1 + cntGt [(1, 90), (2, 90), (3, 80), (4, 70)] e.2,
              roundTo4 (100 * ((4 : ℚ)
                - ((1 + cntGt [(1, 90), (2, 90), (3, 80), (4, 70)] e.2 : ℕ) : ℚ) + 1) / (4 : ℚ))))
        ∧ subjectPass 4 [(1, 90), (2, 90), (3, 80), (4, 70)]
          = [(1, 90), (2, 90), (3, 80), (4, 70)].map (fun e =>
              (e.1, 1 + cntGt [(1, 90), (2, 90), (3, 80), (4, 70)] e.2,
                roundTo4 (100 * ((4 : ℚ)
                  - ((1 + cntGt [(1, 90), (2, 90), (3, 80), (4, 70)] e.2 : ℕ) : ℚ)) / (4 : ℚ))))) :=
  ⟨by decide, C1_percentile_formulas 4 [(1, 90), (2, 90), (3, 80), (4, 70)] (by decide)⟩

/-- C2: for every multiset of active-attempt scores streamed in descending
order, both the overall and the subject-wise ranking pass of the conclusion
pipeline assign standard competition ranks: every attempt gets the rank
`1 + (number of attempts with strictly greater score)` — equivalently, the
1-based position of the first attempt of its tie group, with ranks skipping
values across a tie group (the "1,2,2,4" pattern). -/
theorem C2_competition_ranks (N : ℕ) (docs : List (ℕ × ℤ))
    (hs : docs.Pairwise (fun a b => b.2 ≤ a.2)) :
    (overallPass N docs).map (fun r => (r.1, r.2.1))
        = docs.map (fun e => (e.1, 1 + cntGt docs e.2))
    ∧ (subjectPass N docs).map (fun r => (r.1, r.2.1))
        = docs.map (fun e => (e.1, 1 + cntGt docs e.2)) := by
  constructor
  · rw [overallPass_spec N docs hs, List.map_map]
    rfl
  · rw [subjectPass_spec N docs hs, List.map_map]
    rfl

/-- Witness for C2 on a concrete tie stream: ranks are `1, 2, 2, 4`. -/
theorem C2_competition_ranks_witness :
    ([((7 : ℕ), (50 : ℤ)), (8, 40), (9, 40), (10, 10)].Pairwise
        (fun a b => b.2 ≤ a.2))
    ∧ ((overallPass 4 [(7, 50), (8, 40), (9, 40), (10, 10)]).map (fun r => (r.1, r.2.1))
        = [(7, 50), (8, 40), (9, 40), (10, 10)].map (fun e =>
            (e.1, 1 + cntGt [(7, 50), (8, 40), (9, 40), (10, 10)] e.2))
        ∧ (subjectPass 4 [(7, 50), (8, 40), (9, 40), (10, 10)]).map (fun r => (r.1, r.2.1))
          = [(7, 50), (8, 40), (9, 40), (10, 10)].map (fun e =>
              (e.1, 1 + cntGt [(7, 50), (8, 40), (9, 40), (10, 10)] e.2))) :=
  ⟨by decide, C2_competition_ranks 4 [(7, 50), (8, 40), (9, 40), (10, 10)] (by decide)⟩

/-! ## Claim C10: the live scorer versus the simulation scorer -/

/-- C10 (amended): the two scorers agree up to three systematic differences:
on a successful live score `(s, m)` the simulation returns the truncated
`(int(s), m)`; when the live scorer fails (which happens exactly for an
empty chosen set on a mandatory question) the simulation instead returns
`(0, positive_score)`; and when the question is not in the paper the live
scorer fails with 404 while the simulation returns `(0, 0)`. -/
theorem C10_scorer_refinement (p : Paper) (q : Question) (chosen : List String) :
    (∀ s m, score_submission p q chosen = .ok (s, m) →
        sim_score_submission p q chosen = (pyInt s, m))
    ∧ (∀ e, score_submission p q chosen = .error e →
        (p.paper_questions.find? (fun pq => pq.question.code = q.code) = none →
          e = .http 404 "Question not found in paper"
            ∧ sim_score_submission p q chosen = (0, 0))
        ∧ (∀ pq, p.paper_questions.find? (fun pq => pq.question.code = q.code) = some pq →
            e = .http 409 "Mandatory question needs to be answered"
              ∧ sim_score_submission p q chosen = (0, pq.positive_score))) := by
  constructor
  · intro s m h
    cases hfind : p.paper_questions.find? (fun pq => pq.question.code = q.code) with
    | none =>
      rw [score_submission, hfind] at h
      exact absurd h (by simp)
    | some pq =>
      rw [score_submission_eq_scoreAt p q chosen pq hfind] at h
      unfold sim_score_submission
      rw [hfind]
      exact simScoreAt_of_ok pq q chosen s m h
  · intro e he
    constructor
    · intro hnone
      rw [score_submission, hnone] at he
      simp only [Except.error.injEq] at he
      refine ⟨he.symm, ?_⟩
      unfold sim_score_submission
      rw [hnone]
    · intro pq hpq
      rw [score_submission_eq_scoreAt p q chosen pq hpq] at he
      obtain ⟨hee, -, -⟩ := scoreAt_error_eq pq q chosen e he
      subst hee
      refine ⟨rfl, ?_⟩
      unfold sim_score_submission
      rw [hpq]
      exact simScoreAt_of_mandatory pq q chosen he

/-! ## Claim C3: duplicate-submission uniqueness -/

/-- C3 (code evaluation at the failing input): on a perfectly valid *first*
submission — attempt in progress, inside the window, correct option chosen,
no previous submission for the `(attempt, question, user)` triple — the
handler answers `409 "Already submitted for this question"` and persists
nothing.  The `Submission` is constructed without its *required* `paper`
reference (`submit_answer` lines 181-189 never pass `paper=`), so
`submission.save()` always raises a validation error, which the
`except Exception` branch misreports as a duplicate conflict.  The claim's
guarantee that the first submission persists therefore fails on the code,
before the unique `(test_attempt, question, user)` index ever matters. -/
theorem C3_first_submission_rejected :
    submit_answer 10 1
        { question_id := 10, user_test_id := 1, options_chosen := ["A"] } stFix
      = .error (.http 409 "Already submitted for this question") := by
  rfl

/-! ## Claims C4 and C5: witnesses -/

/-- Witness for C4 on `qFix`: correct option scores `(4, 4)`, the wrong
option scores `(-1, 4)`, a blank non-mandatory answer scores `(0, 4)`. -/
theorem C4_single_correct_scoring_witness :
    score_submission paperFix qFix ["A"]
        = .ok ((pqFix.positive_score : ℚ), pqFix.positive_score)
    ∧ score_submission paperFix qFix ["B"]
        = .ok (-(pqFix.negative_score : ℚ), pqFix.positive_score)
    ∧ score_submission paperFix qFix [] = .ok (0, pqFix.positive_score) := by
  have h := C4_single_correct_scoring paperFix qFix pqFix (by rfl) (by rfl)
  refine ⟨h.1 ["A"] (by simp) ?_, h.2.1 ["B"] ⟨"B", by simp, Or.inr ?_⟩, h.2.2.1 rfl⟩
  · intro c hc
    simp only [List.mem_singleton] at hc
    subst hc
    decide
  · decide

/-- Witness for C5 on `qC5`: the full correct set `["A", "B"]` scores
`positive_score = 10`; the strict subset `["A"]` scores
`10 × 60 / 100`; adding the wrong option `"C"` scores the full `-2`. -/
theorem C5_multiple_correct_scoring_witness :
    score_submission paperC5 qC5 ["A", "B"]
        = .ok ((pqC5.positive_score : ℚ), pqC5.positive_score)
    ∧ score_submission paperC5 qC5 ["A"]
        = .ok (((chosenWeight qC5 ["A"] : ℚ) * (pqC5.positive_score : ℚ)) / 100,
            pqC5.positive_score)
    ∧ score_submission paperC5 qC5 ["A", "C"]
        = .ok (-(pqC5.negative_score : ℚ), pqC5.positive_score) := by
  have h := C5_multiple_correct_scoring paperC5 qC5 pqC5 (by rfl) (by rfl)
    (by decide) (by decide)
  refine ⟨h.1 ["A", "B"] (fun c => ?_), h.2.1 ["A"] (by simp) ?_,
    h.2.2 ["A", "C"] ⟨"C", by simp, Or.inr ?_⟩⟩
  · rw [show correctCodes qC5 = ["A", "B"] from rfl]
  · intro c hc
    simp only [List.mem_singleton] at hc
    subst hc
    decide
  · decide

/-! ## Claim C6: attempt status transitions -/

/-- C6 (counterexample): the claim says Start applies only to a
`NOT_STARTED` attempt and that no core operation moves a `COMPLETED` attempt
back to `IN_PROGRESS`.  But `start_test` never inspects the attempt's
status: started inside the exam window on an already-`COMPLETED` attempt, it
succeeds and stamps the attempt `IN_PROGRESS` again. -/
theorem C6_counterexample :
    attemptC6.status = TestStatus.COMPLETED
    ∧ ((start_test 50 99 1 { paper_id := 1, exam_id := some 1 } stC6).toOption.map
        (fun r => r.2.status)) = some TestStatus.IN_PROGRESS := by
  exact ⟨rfl, rfl⟩

/-- C6 (amended): `start_test` (competitive) applies to *any* pre-existing
attempt for `(exam, user, paper)` — regardless of its current status — once
the window is open and the paper matches, and stamps it `IN_PROGRESS`;
`end_test` applies to *any* attempt owned by the caller — regardless of its
current status — and stamps it `COMPLETED`.  In particular a `COMPLETED`
attempt moves back to `IN_PROGRESS` under Start, and a `NOT_STARTED` attempt
moves directly to `COMPLETED` under End. -/
theorem C6_start_end_transitions (now : ℤ) (newId user : ℕ) (st : SubmitState) :
    (∀ (pid eid : ℕ) (paper : Paper) (exam : Exam) (t : TestAttempt),
      st.papers.find? (fun p => p.pid = pid) = some paper →
      st.exams.find? (fun e => e.eid = eid) = some exam →
      exam.paper_id = paper.pid →
      ¬(exam.start_time > now ∨ exam.end_time < now) →
      st.test_attempts.find? (fun x =>
          x.exam = some eid ∧ x.user = user ∧ x.paper_id = paper.pid) = some t →
      start_test now newId user { paper_id := pid, exam_id := some eid } st
        = .ok ({ st with test_attempts := st.test_attempts.map (fun x =>
              if x.tid = t.tid then
                { t with started_on := some now, status := TestStatus.IN_PROGRESS }
              else x) },
            { t with started_on := some now, status := TestStatus.IN_PROGRESS }))
    ∧ (∀ (utid : ℕ) (t : TestAttempt),
      st.test_attempts.find? (fun x => x.tid = utid ∧ x.user = user) = some t →
      end_test now user { user_test_id := utid } st
        = .ok ({ st with test_attempts := st.test_attempts.map (fun x =>
              if x.tid = t.tid then
                { t with status := TestStatus.COMPLETED, ended_on := some now }
              else x) },
            { t with status := TestStatus.COMPLETED, ended_on := some now })) := by
  constructor
  · intro pid eid paper exam t hp he hmatch hw ht
    unfold start_test
    rw [hp]
    simp only [hmatch, he, ht]
    simp [hw]
  · intro utid t ht
    unfold end_test
    rw [ht]

/-- Witness for C6's amended theorem: starting the already-completed
`attemptC6` (and ending it again) at `now = 50` inside the window. -/
theorem C6_start_end_transitions_witness :
    start_test 50 99 1 { paper_id := 1, exam_id := some 1 } stC6
      = .ok ({ stC6 with test_attempts := stC6.test_attempts.map (fun x =>
            if x.tid = attemptC6.tid then
              { attemptC6 with started_on := some 50, status := TestStatus.IN_PROGRESS }
            else x) },
          { attemptC6 with started_on := some 50, status := TestStatus.IN_PROGRESS })
    ∧ end_test 50 1 { user_test_id := 2 } stC6
      = .ok ({ stC6 with test_attempts := stC6.test_attempts.map (fun x =>
            if x.tid = attemptC6.tid then
              { attemptC6 with status := TestStatus.COMPLETED, ended_on := some 50 }
            else x) },
          { attemptC6 with status := TestStatus.COMPLETED, ended_on := some 50 }) :=
  ⟨(C6_start_end_transitions 50 99 1 stC6).1 1 1 paperFix examFix attemptC6
      (by rfl) (by rfl) (by rfl) (by decide) (by rfl),
    (C6_start_end_transitions 50 99 1 stC6).2 2 attemptC6 (by rfl)⟩

/-! ## Claim C8: the finalised exam's `max_score` -/

/-- C8 (counterexample): on the `N = 0` conclusion run the code copies the
*cached* `paper.max_score` (line 28) instead of recomputing the sum of
`positive_score` over the paper's questions: for `paperC8` (cached 5, sum 4)
the finalised `max_score` is 5, not 4. -/
theorem C8_counterexample :
    (conclude_exam 1 0 (some paperC8) []).max_score = 5
    ∧ (paperC8.paper_questions.map (fun pq => pq.positive_score)).sum = 4
    ∧ (5 : ℤ) ≠ 4 :=
  ⟨rfl, rfl, by norm_num⟩

/-- C8 (amended): on a conclusion run with at least one active attempt the
finalised `max_score` is recomputed as the sum of `positive_score` over the
Paper's `paper_questions`; on the `N = 0` run it is instead copied from the
paper's cached `max_score` field. -/
theorem C8_max_score_source (eid : ℕ) (examMax : ℤ) (p : Paper)
    (attempts : List TestAttempt) :
    ((attempts.filter (isActiveFor eid)).length ≠ 0 →
      (conclude_exam eid examMax (some p) attempts).max_score
        = (p.paper_questions.map (fun pq => pq.positive_score)).sum)
    ∧ ((attempts.filter (isActiveFor eid)).length = 0 →
      (conclude_exam eid examMax (some p) attempts).max_score = p.max_score) := by
  constructor <;> intro h <;> unfold conclude_exam <;> simp [h]

/-- Witness for C8's amended theorem: with one active attempt the recomputed
sum (4) is finalised; with no attempts the cached field (5) is. -/
theorem C8_max_score_source_witness :
    (conclude_exam 1 0 (some paperC8) [attemptFix]).max_score
        = (paperC8.paper_questions.map (fun pq => pq.positive_score)).sum
    ∧ (conclude_exam 1 0 (some paperC8) []).max_score = paperC8.max_score :=
  ⟨(C8_max_score_source 1 0 paperC8 [attemptFix]).1 (by decide),
    (C8_max_score_source 1 0 paperC8 []).2 (by decide)⟩

/-! ## Claim C9: negative scores can never be persisted -/

/-- C9: for every submission whose computed score is negative (any wrong or
invalid selection with `negative_score > 0`), persisting the `Submission`
fails — the `score` field is constrained to a non-negative integer (and the
required `paper` reference is never set by the handler at all) — so
`submit_answer` records nothing and reports the duplicate-submission
Conflict even though no duplicate exists. -/
theorem C9_negative_score_conflict (now : ℤ) (user : ℕ) (body : SubmitAnswerBody)
    (st : SubmitState) (t : TestAttempt) (paper : Paper) (q : Question)
    (s : ℚ) (m : ℤ)
    (ht : st.test_attempts.find? (fun x => x.tid = body.user_test_id ∧ x.user = user)
        = some t)
    (hstat : t.status = TestStatus.IN_PROGRESS)
    (hwin : within_time_window st.exams st.papers now t = true)
    (hp : st.papers.find? (fun p => p.pid = t.paper_id) = some paper)
    (hq : st.questions.find? (fun x => x.qid = body.question_id) = some q)
    (hs : score_submission paper q body.options_chosen = .ok (s, m))
    (hneg : s < 0)
    (hnodup : ∀ sub ∈ st.submissions,
        ¬(sub.test_attempt = t.tid ∧ sub.question = q.qid ∧ sub.user = user)) :
    submit_answer now user body st
      = .error (.http 409 "Already submitted for this question") := by
  unfold submit_answer
  rw [ht]
  simp only [hstat, hwin, hp, hq, hs]
  simp [saveSubmission, submissionValid]

/-- Witness for C9: choosing the wrong option `"B"` of `qFix` scores `-1`;
the handler reports the duplicate conflict although the store is empty. -/
theorem C9_negative_score_conflict_witness :
    submit_answer 10 1
        { question_id := 10, user_test_id := 1, options_chosen := ["B"] } stFix
      = .error (.http 409 "Already submitted for this question") :=
  C9_negative_score_conflict 10 1
    { question_id := 10, user_test_id := 1, options_chosen := ["B"] } stFix
    attemptFix paperFix qFix (-(1 : ℚ)) 4
    (by rfl) (by rfl) (by rfl) (by rfl) (by rfl)
    (by
      have hne : ("B" : String) ≠ "A" := by decide
      norm_num [score_submission, scoreAt, paperFix, pqFix, qFix, byCode, correctCodes, hne])
    (by norm_num)
    (by simp [stFix])

/-! ## Claim C10: counterexample and witness -/

/-- C10 (counterexample): the claim says the live and simulation scorers
produce the same outcome on every input.  On the mandatory question `qC10`
with an empty chosen set the live scorer fails with the MandatoryUnanswered
conflict while the simulation succeeds with `(0, 5)`. -/
theorem C10_counterexample :
    score_submission paperC10 qC10 []
        = .error (.http 409 "Mandatory question needs to be answered")
    ∧ sim_score_submission paperC10 qC10 [] = (0, 5) :=
  ⟨rfl, rfl⟩

/-- Witness for C10's amended theorem: on `qFix` with the correct option the
live scorer returns `(4, 4)` and the simulation returns the truncation
`(int(4), 4) = (4, 4)`. -/
theorem C10_scorer_refinement_witness :
    sim_score_submission paperFix qFix ["A"]
      = (pyInt ((pqFix.positive_score : ℚ)), pqFix.positive_score) :=
  (C10_scorer_refinement paperFix qFix ["A"]).1 (pqFix.positive_score : ℚ)
    pqFix.positive_score
    (by norm_num [score_submission, scoreAt, paperFix, pqFix, qFix, byCode, correctCodes])

end ExamPlatform
